import Mathlib

/-!
Verification of the strategy-core logic of the Backtest repository.

Prices are embedded as rationals (`ℚ`); the Python classes `SmaCore`
(src/strategies/sma_core.py) and `ReversalCore`
(src/strategies/reversal_core.py) become Lean structures whose mutable
fields are threaded explicitly through `update`.  The grid runners and the
order-fill bookkeeping of the backtrader strategies are embedded as pure
functions over the same rational prices.
-/

/-- Trading signal emitted by a signal engine ("buy" / "sell" strings in the
Python source). -/
inductive Signal where
  | buy
  | sell
deriving DecidableEq, Repr

/-- State of the moving-average signal engine, mirroring the fields set in
`SmaCore.__init__` (src/strategies/sma_core.py): the two periods, the
accumulated price list and the last emitted signal. -/
structure SmaCore where
  short_period : ℕ
  long_period : ℕ
  prices : List ℚ
  last_signal : Option Signal
deriving DecidableEq, Repr

namespace SmaCore

/-- State produced by `SmaCore.__init__`: empty price list, no last signal. -/
def init (short_period long_period : ℕ) : SmaCore :=
  { short_period := short_period, long_period := long_period
    prices := [], last_signal := none }

end SmaCore

/-- Python slice `xs[-n:]`. For `n > 0` it keeps the last `min n (length xs)`
elements; for `n = 0` the slice `xs[0:]` is the whole list. -/
def pySliceLast (n : ℕ) (xs : List ℚ) : List ℚ :=
  if n = 0 then xs else xs.drop (xs.length - n)

/-- Simple moving average over the trailing window, as computed in
`SmaCore.update`: `sum(self.prices[-period:]) / period`.  (For `period = 0`
Python would raise `ZeroDivisionError`; here division by zero yields `0`,
a case no theorem below relies on.) -/
def smaOf (period : ℕ) (prices : List ℚ) : ℚ :=
  (pySliceLast period prices).sum / (period : ℚ)

namespace SmaCore

/-- Transition function of `SmaCore.update`: append the price, return `none`
while fewer than `long_period` prices have accumulated, otherwise compare the
two moving averages and report the computed signal only when it differs from
`last_signal` (which is overwritten with the computed signal, even when that
signal is `none`). -/
def update (s : SmaCore) (price : ℚ) : Option Signal × SmaCore :=
  let prices' := s.prices ++ [price]
  if prices'.length < s.long_period then
    (none, { s with prices := prices' })
  else
    let short_sma := smaOf s.short_period prices'
    let long_sma := smaOf s.long_period prices'
    let signal : Option Signal :=
      if short_sma > long_sma then some .buy
      else if short_sma < long_sma then some .sell
      else none
    if signal ≠ s.last_signal then
      (signal, { s with prices := prices', last_signal := signal })
    else
      (none, { s with prices := prices' })

/-- Outputs of feeding a price sequence to `SmaCore.update`, one entry per
call. -/
def run (s : SmaCore) (ps : List ℚ) : List (Option Signal) :=
  match ps with
  | [] => []
  | p :: rest =>
    let (out, s') := s.update p
    out :: run s' rest

end SmaCore

/-- One OHLC bar, the dict `{"open", "high", "low", "close"}` consumed by
`ReversalCore.update`.  Field names follow the local variables of that
method. -/
structure Candle where
  open_price : ℚ
  high_price : ℚ
  low_price : ℚ
  close_price : ℚ
deriving DecidableEq, Repr

/-- State of the consecutive-reversal engine, mirroring the parameters and
mutable fields of `ReversalCore.__init__` (src/strategies/reversal_core.py). -/
structure ReversalCore where
  consecutive_bear_threshold : ℕ
  take_profit_pct : ℚ
  stop_loss_pct : ℚ
  bear_count : ℕ
  triggered : Bool
  in_position : Bool
  buy_price : Option ℚ
  take_profit_price : Option ℚ
  stop_loss_price : Option ℚ
  last_signal : Option Signal
deriving DecidableEq, Repr

namespace ReversalCore

/-- State produced by `ReversalCore.__init__`. -/
def init (consecutive_bear_threshold : ℕ) (take_profit_pct stop_loss_pct : ℚ) :
    ReversalCore :=
  { consecutive_bear_threshold := consecutive_bear_threshold
    take_profit_pct := take_profit_pct
    stop_loss_pct := stop_loss_pct
    bear_count := 0, triggered := false, in_position := false
    buy_price := none, take_profit_price := none, stop_loss_price := none
    last_signal := none }

/-- Transition function of `ReversalCore.update`.  When no position is open
it either accumulates the bearish streak (possibly setting `triggered`) or,
once triggered, buys on the first bullish bar; when a position is open it
checks the take-profit / stop-loss exit.  The exit branch compares floats
with `self.take_profit_price` / `self.stop_loss_price`, which are only
non-`None` while a position is open (see the invariant proved below); the
fall-through arm covers the states Python could only reach by raising a
`TypeError`. -/
def update (s : ReversalCore) (c : Candle) : Option Signal × ReversalCore :=
  if s.in_position = false then
    if s.triggered = false then
      let bear_count' :=
        if c.close_price < c.open_price then s.bear_count + 1 else 0
      let triggered' :=
        if s.consecutive_bear_threshold ≤ bear_count' then true else s.triggered
      (none, { s with bear_count := bear_count', triggered := triggered' })
    else
      if c.open_price < c.close_price then
        let tp := c.close_price * (1 + s.take_profit_pct / 100)
        let sl := c.close_price * (1 + s.stop_loss_pct / 100)
        let s' := { s with in_position := true, triggered := false
                           bear_count := 0, buy_price := some c.close_price
                           take_profit_price := some tp
                           stop_loss_price := some sl }
        if s.last_signal ≠ some Signal.buy then
          (some Signal.buy, { s' with last_signal := some Signal.buy })
        else
          (none, s')
      else
        (none, s)
  else
    match s.take_profit_price, s.stop_loss_price with
    | some tp, some sl =>
      if tp ≤ c.high_price ∨ c.low_price ≤ sl then
        let s' := { s with in_position := false, buy_price := none
                           take_profit_price := none, stop_loss_price := none
                           bear_count := 0, triggered := false }
        if s.last_signal ≠ some Signal.sell then
          (some Signal.sell, { s' with last_signal := some Signal.sell })
        else
          (none, s')
      else
        (none, s)
    | _, _ => (none, s)

/-- Outputs of feeding a candle sequence to `ReversalCore.update`, one entry
per call. -/
def run (s : ReversalCore) (cs : List Candle) : List (Option Signal) :=
  match cs with
  | [] => []
  | c :: rest =>
    let (out, s') := s.update c
    out :: run s' rest

/-- State reached after feeding a candle sequence to `ReversalCore.update`. -/
def runState (s : ReversalCore) (cs : List Candle) : ReversalCore :=
  cs.foldl (fun s c => (s.update c).2) s

end ReversalCore

/-- Candle sequence of the `__main__` test in src/strategies/reversal_core.py
(`test_candles`). -/
def test_candles : List Candle :=
  [⟨100, 100, 99, 99⟩, ⟨99, 99, 98, 98⟩, ⟨98, 98, 97, 97⟩,
   ⟨97, 98, 97, 98⟩, ⟨98, 101, 98, 100⟩, ⟨100, 102, 97, 97⟩]

/-- Invariant relating `in_position` to the three per-trade price fields of
`ReversalCore`: a position is open exactly when all of `buy_price`,
`take_profit_price` and `stop_loss_price` are set, and when no position is
open all three are `None`. -/
def RevPriceInv (s : ReversalCore) : Prop :=
  (s.in_position = true ↔
    (s.buy_price ≠ none ∧ s.take_profit_price ≠ none ∧ s.stop_loss_price ≠ none)) ∧
  (s.in_position = false →
    (s.buy_price = none ∧ s.take_profit_price = none ∧ s.stop_loss_price = none))

/-- Auxiliary invariant of `ReversalCore`: while no position is open the
remembered `last_signal` is never `"buy"` (a buy marks the state as
in-position, and an exit overwrites the last signal with `"sell"`). -/
def RevNoBuyInv (s : ReversalCore) : Prop :=
  s.in_position = false → s.last_signal ≠ some Signal.buy

/-- Exit reason attached to the closing order (`"止盈"` take-profit /
`"止損"` stop-loss in the source logs). -/
inductive ExitReason where
  | takeProfit
  | stopLoss
deriving DecidableEq, Repr

/-- Exit decision taken each bar while in a trade by
`ConsecutiveBearishBuyMarketStrategy.next` in
src/strategies/bearish_reversal_strategy.py (lines 93-110): the take-profit
comparison is an `if`, the stop-loss comparison the following `elif`. -/
def bearishReversalExitDecision (take_profit_pct stop_loss_pct entry_price
    high low : ℚ) : Option ExitReason :=
  let target_profit := entry_price * (1 + take_profit_pct / 100)
  let target_stop := entry_price * (1 + stop_loss_pct / 100)
  if target_profit ≤ high then some .takeProfit
  else if low ≤ target_stop then some .stopLoss
  else none

/-- Exit decision taken per open trade by
`ConsecutiveBearishBuyMarketStrategy.next` in src/strategies/str_wick.py
(lines 72-103): same `if`/`elif` ordering, applied to the recorded entry
price of the trade. -/
def wickExitDecision (take_profit_pct stop_loss_pct entry_price
    high low : ℚ) : Option ExitReason :=
  let target_profit := entry_price * (1 + take_profit_pct / 100)
  let target_stop := entry_price * (1 + stop_loss_pct / 100)
  if target_profit ≤ high then some .takeProfit
  else if low ≤ target_stop then some .stopLoss
  else none

/-- Cash and position of the simulated account. -/
structure Broker where
  cash : ℚ
  position_size : ℚ
deriving DecidableEq, Repr

/-- Modelled from the spec: the execution by the backtrader broker of a market Buy
order is not part of this repository; section 4.4 of the spec gives it as
`cash -= size*price`, `position_size += size` (the broker-level commission
term is `MakerTakerCommission.getcommission` from
src/strategies/sma_strategy.py, which returns 0). -/
def brokerBuyFill (b : Broker) (size price : ℚ) : Broker :=
  { cash := b.cash - size * price, position_size := b.position_size + size }

/-- Modelled from the spec: the execution by the backtrader broker of a market
Sell order, `cash += size*price`, `position_size -= size`, again with the
broker-level commission of 0 defined in the source. -/
def brokerSellFill (b : Broker) (size price : ℚ) : Broker :=
  { cash := b.cash + size * price, position_size := b.position_size - size }

/-- Commission computed in `SMAStrategy.notify_order`
(src/strategies/sma_strategy.py lines 118-126): `trade_value =
abs(size*price)`, rate 0.0008 for maker and 0.0010 for taker. -/
def notifyOrderCommission (maker : Bool) (size price : ℚ) : ℚ :=
  |size * price| * (if maker then 8 / 10000 else 10 / 10000)

/-- Cash adjustment of `SMAStrategy.notify_order` (lines 130-133): the
computed commission is deducted from the broker cash via `set_cash`. -/
def notifyOrderDeduct (b : Broker) (commission : ℚ) : Broker :=
  { b with cash := b.cash - commission }

/-- Complete processing of a filled Buy order in the crossover flow: the
broker fill followed by the manual commission deduction of `notify_order`. -/
def buyFillStep (b : Broker) (size price : ℚ) (maker : Bool) : Broker :=
  notifyOrderDeduct (brokerBuyFill b size price)
    (notifyOrderCommission maker size price)

/-- Complete processing of the matching Sell/close fill: `FractionalSizer`
returns the whole current position for a sell (src/strategies/sma_strategy.py
lines 30-33), so the fill size is `b.position_size`; the broker fill is then
followed by the commission deduction of `notify_order`. -/
def sellCloseStep (b : Broker) (price : ℚ) (maker : Bool) : Broker :=
  notifyOrderDeduct (brokerSellFill b b.position_size price)
    (notifyOrderCommission maker b.position_size price)

/-- Account state of the `SmaCoreStrategy` flow
(src/strategies/sma_strategy_bt.py): broker cash and position, plus the
`total_fee_usdt` accumulator maintained by its `notify_order`. -/
structure BtCoreAccount where
  cash : ℚ
  position_size : ℚ
  total_fee_usdt : ℚ
deriving DecidableEq, Repr

/-- Complete processing of a filled Buy order in `SmaCoreStrategy`
(src/strategies/sma_strategy_bt.py lines 172-180): the broker fill (with the
broker-level commission 0, since `run_strategy` configures none), then
`notify_order` computes `fee_btc = taker_fee_rate * size`,
`fee_usdt = fee_btc * price` and only accumulates it in `total_fee_usdt` —
no `set_cash` call deducts it from the broker cash. -/
def btBuyFillStep (a : BtCoreAccount) (size price taker_fee_rate : ℚ) :
    BtCoreAccount :=
  let b := brokerBuyFill ⟨a.cash, a.position_size⟩ size price
  { cash := b.cash, position_size := b.position_size
    total_fee_usdt := a.total_fee_usdt + taker_fee_rate * size * price }

/-- Complete processing of the matching Sell/close fill in `SmaCoreStrategy`
(src/strategies/sma_strategy_bt.py lines 159-164 and 181-188): `close` exits
the whole position; `notify_order` computes `fee_usdt = maker_fee_rate *
(price * size)` and, again, only accumulates it. -/
def btSellCloseStep (a : BtCoreAccount) (price maker_fee_rate : ℚ) :
    BtCoreAccount :=
  let b := brokerSellFill ⟨a.cash, a.position_size⟩ a.position_size price
  { cash := b.cash, position_size := b.position_size
    total_fee_usdt := a.total_fee_usdt + maker_fee_rate * (price * a.position_size) }

/-- Parameter combination submitted to a single SMA backtest run. -/
structure SmaGridCombo where
  init_cash : ℚ
  percent : ℚ
  short_period : ℕ
  long_period : ℕ
deriving DecidableEq, Repr

/-- Combinations actually executed by `run_sma_backtest_multi`
(src/strategies/sma_strategy.py lines 253-284): nested loops over the four
parameter lists, skipping (`continue`) every combination with
`short_period >= long_period`. -/
def run_sma_backtest_multi (init_cashes percents : List ℚ)
    (short_periods long_periods : List ℕ) : List SmaGridCombo :=
  init_cashes.flatMap fun ic => percents.flatMap fun p =>
    short_periods.flatMap fun sp => long_periods.filterMap fun lp =>
      if lp ≤ sp then none else some ⟨ic, p, sp, lp⟩

/-- Parameter combination submitted to a single reversal backtest run. -/
structure ReversalGridCombo where
  init_cash : ℚ
  percent : ℚ
  consecutive : ℕ
  tp_pct : ℚ
  sl_pct : ℚ
deriving DecidableEq, Repr

/-- Combinations actually executed by `run_bearish_reversal_backtest_multi`
(src/strategies/bearish_reversal_strategy.py lines 283-338): nested loops
over the five parameter lists, skipping (`continue`) every combination with
`tp_pct <= 0 or sl_pct >= 0`. -/
def run_bearish_reversal_backtest_multi (init_cashes percents : List ℚ)
    (consecutives : List ℕ) (tp_pct_list sl_pct_list : List ℚ) :
    List ReversalGridCombo :=
  init_cashes.flatMap fun ic => percents.flatMap fun p =>
    consecutives.flatMap fun c => tp_pct_list.flatMap fun tp =>
      sl_pct_list.filterMap fun sl =>
        if tp ≤ 0 ∨ 0 ≤ sl then none else some ⟨ic, p, c, tp, sl⟩

/-- Combinations actually executed by `run_backtest_multi`
(src/strategies/str_wick.py lines 317-359): nested loops over the five
parameter lists with no filtering whatsoever. -/
def run_backtest_multi (init_cashes percents : List ℚ)
    (consecutives : List ℕ) (tp_pct_list sl_pct_list : List ℚ) :
    List ReversalGridCombo :=
  init_cashes.flatMap fun ic => percents.flatMap fun p =>
    consecutives.flatMap fun c => tp_pct_list.flatMap fun tp =>
      sl_pct_list.map fun sl => ⟨ic, p, c, tp, sl⟩

/-- Python float value as fed to `SmaCore.update`: either a finite rational
or the non-finite `nan`. -/
inductive FVal where
  | nan
  | fin (q : ℚ)
deriving DecidableEq, Repr

namespace FVal

/-- IEEE-754 addition restricted to the values above: any operation touching
`nan` yields `nan`. -/
def add : FVal → FVal → FVal
  | fin a, fin b => fin (a + b)
  | _, _ => nan

/-- IEEE-754 division by a (positive) integer period. -/
def divNat : FVal → ℕ → FVal
  | fin a, n => fin (a / (n : ℚ))
  | nan, _ => nan

/-- IEEE-754 strict greater-than: every comparison involving `nan` is
false. -/
def gtF : FVal → FVal → Bool
  | nan, _ => false
  | fin _, nan => false
  | fin a, fin b => decide (b < a)

/-- IEEE-754 strict less-than: every comparison involving `nan` is false. -/
def ltF : FVal → FVal → Bool
  | nan, _ => false
  | fin _, nan => false
  | fin a, fin b => decide (a < b)

end FVal

/-- Python `sum` over a float list: a left fold of `+` starting from `0`. -/
def fsum (xs : List FVal) : FVal :=
  xs.foldl FVal.add (FVal.fin 0)

/-- Python slice `xs[-n:]` over float lists (see `pySliceLast`). -/
def pySliceLastF (n : ℕ) (xs : List FVal) : List FVal :=
  if n = 0 then xs else xs.drop (xs.length - n)

/-- Trailing simple moving average over float values, as in
`SmaCore.update`. -/
def smaOfF (period : ℕ) (prices : List FVal) : FVal :=
  (fsum (pySliceLastF period prices)).divNat period

/-- State of `SmaCore` when its prices are kept as Python floats, so that
non-finite inputs can be represented. -/
structure SmaCoreF where
  short_period : ℕ
  long_period : ℕ
  prices : List FVal
  last_signal : Option Signal
deriving DecidableEq, Repr

namespace SmaCoreF

/-- Transition function of `SmaCore.update` over float values: identical to
`SmaCore.update`, with the comparisons given IEEE-754 semantics.  The source
performs no input validation, so the function is total and has no error
outcome. -/
def update (s : SmaCoreF) (price : FVal) : Option Signal × SmaCoreF :=
  let prices' := s.prices ++ [price]
  if prices'.length < s.long_period then
    (none, { s with prices := prices' })
  else
    let short_sma := smaOfF s.short_period prices'
    let long_sma := smaOfF s.long_period prices'
    let signal : Option Signal :=
      if short_sma.gtF long_sma then some .buy
      else if short_sma.ltF long_sma then some .sell
      else none
    if signal ≠ s.last_signal then
      (signal, { s with prices := prices', last_signal := signal })
    else
      (none, { s with prices := prices' })

end SmaCoreF

namespace SmaCore

theorem run_cons_eq (s : SmaCore) (p : ℚ) (rest : List ℚ) :
    s.run (p :: rest) = (s.update p).1 :: (s.update p).2.run rest := rfl

theorem update_prices (s : SmaCore) (p : ℚ) :
    ((s.update p).2).prices = s.prices ++ [p] := by
  unfold update
  dsimp only
  repeat' split
  all_goals rfl

theorem update_long_period (s : SmaCore) (p : ℚ) :
    ((s.update p).2).long_period = s.long_period := by
  unfold update
  dsimp only
  repeat' split
  all_goals rfl

theorem update_fst_of_lt (s : SmaCore) (p : ℚ)
    (h : (s.prices ++ [p]).length < s.long_period) :
    (s.update p).1 = none := by
  unfold update
  dsimp only
  rw [if_pos h]

theorem update_of_buy_signal (s : SmaCore) (p : ℚ)
    (hlen : s.long_period ≤ (s.prices ++ [p]).length)
    (hgt : smaOf s.long_period (s.prices ++ [p]) <
      smaOf s.short_period (s.prices ++ [p])) :
    s.update p =
      ((if s.last_signal ≠ some Signal.buy then some Signal.buy else none),
        { s with prices := s.prices ++ [p], last_signal := some Signal.buy }) := by
  obtain ⟨sp, lp, pr, ls⟩ := s
  unfold update
  dsimp only at *
  rw [if_neg (Nat.not_lt.mpr hlen), if_pos hgt]
  by_cases hls : ls = some Signal.buy
  · subst hls
    simp
  · rw [if_pos (by simpa [eq_comm] using hls), if_pos (by simpa using hls)]

end SmaCore

/-- Helper for C6, generalized over the starting state: while the total
number of accumulated prices stays below `long_period`, every call returns
`none`. -/
theorem sma_run_getElem_none : ∀ (ps : List ℚ) (s : SmaCore) (i : ℕ),
    i < ps.length → s.prices.length + i + 1 < s.long_period →
    (s.run ps)[i]? = some none := by
  intro ps
  induction ps with
  | nil => intro s i hi _; simp at hi
  | cons p rest ih =>
    intro s i hi hlen
    rw [SmaCore.run_cons_eq]
    match i with
    | 0 =>
      rw [List.getElem?_cons_zero, SmaCore.update_fst_of_lt]
      simp only [List.length_append, List.length_cons, List.length_nil]
      omega
    | Nat.succ j =>
      rw [List.getElem?_cons_succ]
      apply ih
      · simpa using Nat.lt_of_succ_lt_succ (by simpa using hi)
      · rw [SmaCore.update_prices, SmaCore.update_long_period]
        simp only [List.length_append, List.length_cons, List.length_nil]
        omega

/-- C6: for every price sequence, each of the first `long_period - 1` calls
to `SmaCore.update` (call `i`, zero-indexed, with `i + 1 < long_period`)
returns `None`: no signal is emitted before `long_period` prices have
accumulated. -/
theorem c6_no_signal_before_long_period (short_period long_period : ℕ)
    (ps : List ℚ) (i : ℕ) (hi : i < ps.length)
    (hwarm : i + 1 < long_period) :
    ((SmaCore.init short_period long_period).run ps)[i]? = some none := by
  apply sma_run_getElem_none
  · exact hi
  · simpa [SmaCore.init] using hwarm

/-- Witness for C6 at a concrete input: with `long_period = 3`, the first two
calls on the price list `[5, 6]` both return `None`. -/
theorem c6_witness :
    (0 < ([(5 : ℚ), 6]).length ∧ 0 + 1 < 3 ∧
      ((SmaCore.init 1 3).run [(5 : ℚ), 6])[0]? = some none) ∧
    ((SmaCore.init 1 3).run [(5 : ℚ), 6])[1]? = some none :=
  ⟨⟨by norm_num, by norm_num,
    c6_no_signal_before_long_period 1 3 [(5 : ℚ), 6] 0 (by norm_num) (by norm_num)⟩,
    c6_no_signal_before_long_period 1 3 [(5 : ℚ), 6] 1 (by norm_num) (by norm_num)⟩

/-- C5: whenever two consecutive calls to `SmaCore.update` both compute
`short SMA > long SMA`, the second call returns `None`; the first call emits
`"buy"` provided the previously remembered signal was not already `"buy"`.
The dedup rule compares against the last computed signal. -/
theorem c5_consecutive_buy_dedup (s : SmaCore) (p₁ p₂ : ℚ)
    (hlen : s.long_period ≤ (s.prices ++ [p₁]).length)
    (h₁ : smaOf s.long_period (s.prices ++ [p₁]) <
      smaOf s.short_period (s.prices ++ [p₁]))
    (h₂ : smaOf s.long_period (s.prices ++ [p₁] ++ [p₂]) <
      smaOf s.short_period (s.prices ++ [p₁] ++ [p₂])) :
    ((s.update p₁).2.update p₂).1 = none ∧
    (s.last_signal ≠ some Signal.buy → (s.update p₁).1 = some Signal.buy) := by
  have hu₁ := s.update_of_buy_signal p₁ hlen h₁
  set s₁ : SmaCore :=
    { s with prices := s.prices ++ [p₁], last_signal := some Signal.buy } with hs₁
  have hfields : s₁.prices = s.prices ++ [p₁] ∧ s₁.long_period = s.long_period ∧
      s₁.short_period = s.short_period ∧ s₁.last_signal = some Signal.buy := by
    simp [hs₁]
  constructor
  · rw [hu₁]
    have hlen₂ : s₁.long_period ≤ (s₁.prices ++ [p₂]).length := by
      rw [hfields.1, hfields.2.1]
      simp only [List.length_append, List.length_cons, List.length_nil] at hlen ⊢
      omega
    have hgt₂ : smaOf s₁.long_period (s₁.prices ++ [p₂]) <
        smaOf s₁.short_period (s₁.prices ++ [p₂]) := by
      rw [hfields.1, hfields.2.1, hfields.2.2.1]
      exact h₂
    rw [s₁.update_of_buy_signal p₂ hlen₂ hgt₂]
    simp [hfields.2.2.2]
  · intro hne
    rw [hu₁]
    simp [hne]

/-- Witness for C5 at a concrete input: from state `⟨1, 2, [1], none⟩`,
prices 2 and 3 both give short SMA > long SMA; the first call emits `"buy"`
and the second returns `None`. -/
theorem c5_witness :
    ((2 : ℕ) ≤ (([(1 : ℚ)] ++ [2]).length) ∧
      smaOf 2 ([(1 : ℚ)] ++ [2]) < smaOf 1 ([(1 : ℚ)] ++ [2]) ∧
      smaOf 2 ([(1 : ℚ)] ++ [2] ++ [3]) < smaOf 1 ([(1 : ℚ)] ++ [2] ++ [3])) ∧
    (((SmaCore.mk 1 2 [1] none).update 2).2.update 3).1 = none := by
  have hyp₁ : (2 : ℕ) ≤ (([(1 : ℚ)] ++ [2]).length) := by norm_num
  have hyp₂ : smaOf 2 ([(1 : ℚ)] ++ [2]) < smaOf 1 ([(1 : ℚ)] ++ [2]) := by
    norm_num [smaOf, pySliceLast]
  have hyp₃ : smaOf 2 ([(1 : ℚ)] ++ [2] ++ [3]) <
      smaOf 1 ([(1 : ℚ)] ++ [2] ++ [3]) := by
    norm_num [smaOf, pySliceLast]
  exact ⟨⟨hyp₁, hyp₂, hyp₃⟩,
    (c5_consecutive_buy_dedup (SmaCore.mk 1 2 [1] none) 2 3 hyp₁ hyp₂ hyp₃).1⟩

/-- C10: there is a price sequence on which the engine emits `"buy"` twice
with no intervening `"sell"`: with `short_period = 1`, `long_period = 2` the
sequence `[1, 2, 2, 3]` yields `buy` on call 2, a tie on call 3 (which
overwrites the remembered signal with `None`), and `buy` again on call 4. -/
theorem c10_double_buy_after_tie :
    (SmaCore.init 1 2).run [1, 2, 2, 3] =
      [none, some Signal.buy, none, some Signal.buy] := by
  norm_num +decide [SmaCore.run, SmaCore.update, SmaCore.init, smaOf, pySliceLast]

namespace ReversalCore

theorem rev_run_cons_eq (s : ReversalCore) (c : Candle) (rest : List Candle) :
    s.run (c :: rest) = (s.update c).1 :: (s.update c).2.run rest := rfl

theorem runState_nil (s : ReversalCore) : s.runState [] = s := rfl

theorem runState_cons (s : ReversalCore) (c : Candle) (rest : List Candle) :
    s.runState (c :: rest) = (s.update c).2.runState rest := rfl

end ReversalCore

theorem revPriceInv_init (t : ℕ) (tp sl : ℚ) :
    RevPriceInv (ReversalCore.init t tp sl) := by
  simp [RevPriceInv, ReversalCore.init]

theorem revPriceInv_update (s : ReversalCore) (c : Candle) (h : RevPriceInv s) :
    RevPriceInv (s.update c).2 := by
  obtain ⟨h₁, h₂⟩ := h
  unfold ReversalCore.update
  dsimp only
  split
  case isTrue hpos =>
    split
    case isTrue htrig => exact ⟨h₁, h₂⟩
    case isFalse htrig =>
      split
      case isTrue hbull =>
        split
        case isTrue hls => simp [RevPriceInv]
        case isFalse hls => simp [RevPriceInv]
      case isFalse hbull => exact ⟨h₁, h₂⟩
  case isFalse hpos =>
    split
    case h_1 tp sl heq₁ heq₂ =>
      split
      case isTrue hexit =>
        split
        case isTrue hls => simp [RevPriceInv]
        case isFalse hls => simp [RevPriceInv]
      case isFalse hexit => exact ⟨h₁, h₂⟩
    case h_2 => exact ⟨h₁, h₂⟩

theorem revPriceInv_runState (cs : List Candle) (s : ReversalCore)
    (h : RevPriceInv s) : RevPriceInv (s.runState cs) := by
  induction cs generalizing s with
  | nil => exact h
  | cons c rest ih =>
    rw [ReversalCore.runState_cons]
    exact ih _ (revPriceInv_update s c h)

/-- C9: in every `ReversalCore` state reachable from initialization,
`in_position` is true exactly when `buy_price`, `take_profit_price` and
`stop_loss_price` are all non-`None` (and all three are `None` whenever no
position is open), and every single call to `update` preserves this
invariant. -/
theorem c9_position_price_invariant :
    (∀ (t : ℕ) (tp sl : ℚ) (cs : List Candle),
      RevPriceInv ((ReversalCore.init t tp sl).runState cs)) ∧
    (∀ (s : ReversalCore) (c : Candle), RevPriceInv s →
      RevPriceInv (s.update c).2) :=
  ⟨fun t tp sl cs => revPriceInv_runState cs _ (revPriceInv_init t tp sl),
   fun s c h => revPriceInv_update s c h⟩

/-- Witness for C9: a concrete in-position state satisfying the invariant, and
the invariant after one further update (a bar that triggers the stop-loss). -/
theorem c9_witness :
    RevPriceInv (ReversalCore.mk 3 3 (-2) 0 false true (some 98)
      (some (10094 / 100)) (some (9604 / 100)) (some Signal.buy)) ∧
    RevPriceInv ((ReversalCore.mk 3 3 (-2) 0 false true (some 98)
      (some (10094 / 100)) (some (9604 / 100))
      (some Signal.buy)).update ⟨100, 102, 97, 97⟩).2 := by
  have h : RevPriceInv (ReversalCore.mk 3 3 (-2) 0 false true (some 98)
      (some (10094 / 100)) (some (9604 / 100)) (some Signal.buy)) := by
    simp [RevPriceInv]
  exact ⟨h, c9_position_price_invariant.2 _ ⟨100, 102, 97, 97⟩ h⟩

theorem revNoBuyInv_init (t : ℕ) (tp sl : ℚ) :
    RevNoBuyInv (ReversalCore.init t tp sl) := by
  simp [RevNoBuyInv, ReversalCore.init]

theorem revNoBuyInv_update (s : ReversalCore) (c : Candle)
    (h : RevNoBuyInv s) : RevNoBuyInv (s.update c).2 := by
  unfold ReversalCore.update
  dsimp only
  split
  case isTrue hpos =>
    split
    case isTrue htrig => exact h
    case isFalse htrig =>
      split
      case isTrue hbull =>
        split
        case isTrue hls => simp [RevNoBuyInv]
        case isFalse hls => simp [RevNoBuyInv]
      case isFalse hbull => exact h
  case isFalse hpos =>
    split
    case h_1 tp sl heq₁ heq₂ =>
      split
      case isTrue hexit =>
        split
        case isTrue hls => simp [RevNoBuyInv]
        case isFalse hls =>
          have hsell : s.last_signal = some Signal.sell := by
            by_contra hne
            exact hls hne
          simp [RevNoBuyInv, hsell]
      case isFalse hexit => exact h
    case h_2 => exact h

theorem revNoBuyInv_runState (cs : List Candle) (s : ReversalCore)
    (h : RevNoBuyInv s) : RevNoBuyInv (s.runState cs) := by
  induction cs generalizing s with
  | nil => exact h
  | cons c rest ih =>
    rw [ReversalCore.runState_cons]
    exact ih _ (revNoBuyInv_update s c h)

/-- C4: once a reachable engine state is triggered with no open position,
a further bearish (or doji) bar leaves the state completely unchanged — in
particular it stays triggered and the streak count is untouched — while the
first bullish bar emits `"buy"` and resets `triggered` to `false` and
`bear_count` to `0`. -/
theorem c4_triggered_persists_until_bullish (t : ℕ) (tp sl : ℚ)
    (cs : List Candle) (c : Candle)
    (htrig : ((ReversalCore.init t tp sl).runState cs).triggered = true)
    (hpos : ((ReversalCore.init t tp sl).runState cs).in_position = false) :
    (c.close_price ≤ c.open_price →
      (((ReversalCore.init t tp sl).runState cs).update c).2 =
        (ReversalCore.init t tp sl).runState cs ∧
      (((ReversalCore.init t tp sl).runState cs).update c).1 = none) ∧
    (c.open_price < c.close_price →
      (((ReversalCore.init t tp sl).runState cs).update c).1 = some Signal.buy ∧
      (((ReversalCore.init t tp sl).runState cs).update c).2.triggered = false ∧
      (((ReversalCore.init t tp sl).runState cs).update c).2.bear_count = 0) := by
  set s := (ReversalCore.init t tp sl).runState cs with hs
  have hnb : s.last_signal ≠ some Signal.buy :=
    revNoBuyInv_runState cs _ (revNoBuyInv_init t tp sl) hpos
  constructor
  · intro hbear
    unfold ReversalCore.update
    dsimp only
    rw [if_pos hpos, if_neg (by simp [htrig] : ¬(s.triggered = false)),
      if_neg (not_lt.mpr hbear)]
    exact ⟨rfl, rfl⟩
  · intro hbull
    unfold ReversalCore.update
    dsimp only
    rw [if_pos hpos, if_neg (by simp [htrig] : ¬(s.triggered = false)),
      if_pos hbull, if_pos hnb]
    exact ⟨rfl, rfl, rfl⟩

/-- Witness for C4: with threshold 1, one bearish bar reaches the triggered
state, and a subsequent bullish bar emits `"buy"`. -/
theorem c4_witness :
    (((ReversalCore.init 1 3 (-2)).runState [⟨100, 100, 99, 99⟩]).triggered
      = true) ∧
    ((((ReversalCore.init 1 3 (-2)).runState
      [⟨100, 100, 99, 99⟩]).update ⟨97, 98, 97, 98⟩).1 = some Signal.buy) := by
  have h₁ : ((ReversalCore.init 1 3 (-2)).runState
      [⟨100, 100, 99, 99⟩]).triggered = true := by
    norm_num +decide [ReversalCore.runState, ReversalCore.update,
      ReversalCore.init]
  have h₂ : ((ReversalCore.init 1 3 (-2)).runState
      [⟨100, 100, 99, 99⟩]).in_position = false := by
    norm_num +decide [ReversalCore.runState, ReversalCore.update,
      ReversalCore.init]
  exact ⟨h₁, ((c4_triggered_persists_until_bullish 1 3 (-2)
    [⟨100, 100, 99, 99⟩] ⟨97, 98, 97, 98⟩ h₁ h₂).2 (by norm_num)).1⟩

/-- C2: the end-to-end `ReversalCore` trace on the six test candles with
threshold 3, `tp_pct = 3`, `sl_pct = -2`: triggered after candle 3, `"buy"`
on candle 4 at price 98 with take-profit 100.94 and stop-loss 96.04, `"sell"`
on candle 5 (high 101 ≥ 100.94), and no signal on candle 6. -/
theorem c2_end_to_end_trace :
    ((ReversalCore.init 3 3 (-2)).runState (test_candles.take 3)).triggered
      = true ∧
    (ReversalCore.init 3 3 (-2)).run test_candles =
      [none, none, none, some Signal.buy, some Signal.sell, none] ∧
    ((ReversalCore.init 3 3 (-2)).runState (test_candles.take 4)).buy_price
      = some 98 ∧
    ((ReversalCore.init 3 3 (-2)).runState
      (test_candles.take 4)).take_profit_price = some (10094 / 100) ∧
    ((ReversalCore.init 3 3 (-2)).runState
      (test_candles.take 4)).stop_loss_price = some (9604 / 100) := by
  refine ⟨?_, ?_, ?_, ?_, ?_⟩ <;>
    norm_num +decide [ReversalCore.run, ReversalCore.runState,
      ReversalCore.update, ReversalCore.init, test_candles]

/-- C1: whenever a bar satisfies both exit conditions at once (high reaches
the take-profit target and low reaches the stop-loss target), both backtrader
reversal strategies check take-profit first, so the trade always closes with
exit reason `TakeProfit`, never `StopLoss`. -/
theorem c1_takeprofit_wins_tiebreak (take_profit_pct stop_loss_pct
    entry_price high low : ℚ)
    (htp : entry_price * (1 + take_profit_pct / 100) ≤ high)
    (hsl : low ≤ entry_price * (1 + stop_loss_pct / 100)) :
    bearishReversalExitDecision take_profit_pct stop_loss_pct entry_price
      high low = some ExitReason.takeProfit ∧
    wickExitDecision take_profit_pct stop_loss_pct entry_price high low
      = some ExitReason.takeProfit := by
  constructor
  · unfold bearishReversalExitDecision
    dsimp only
    rw [if_pos htp]
  · unfold wickExitDecision
    dsimp only
    rw [if_pos htp]

/-- Witness for C1: entry 100, `tp_pct = 3`, `sl_pct = -2`, a bar with
high 103 and low 98 breaches both targets and exits with take-profit. -/
theorem c1_witness :
    ((100 : ℚ) * (1 + 3 / 100) ≤ 103 ∧ (98 : ℚ) ≤ 100 * (1 + (-2) / 100)) ∧
    bearishReversalExitDecision 3 (-2) 100 103 98
      = some ExitReason.takeProfit := by
  have htp : (100 : ℚ) * (1 + 3 / 100) ≤ 103 := by norm_num
  have hsl : (98 : ℚ) ≤ 100 * (1 + (-2) / 100) := by norm_num
  exact ⟨⟨htp, hsl⟩, (c1_takeprofit_wins_tiebreak 3 (-2) 100 103 98 htp hsl).1⟩

/-- Counterexample for C3: in the `SmaCoreStrategy` flow
(src/strategies/sma_strategy_bt.py), a Buy fill of 1 unit at price 100 from a
flat 10000-cash account with the default taker fee rate 0.001 leaves cash at
exactly `10000 - 1*100 = 9900`: the computed fee 0.1 is accumulated in
`total_fee_usdt` but never deducted, so cash does not decrease by
`size*price + commission` as the claim states. -/
theorem c3_counterexample :
    (btBuyFillStep (BtCoreAccount.mk 10000 0 0) 1 100 (1 / 1000)).cash =
      10000 - 1 * 100 ∧
    (btBuyFillStep (BtCoreAccount.mk 10000 0 0) 1 100
      (1 / 1000)).total_fee_usdt = 1 / 10 ∧
    (btBuyFillStep (BtCoreAccount.mk 10000 0 0) 1 100 (1 / 1000)).cash ≠
      10000 - (1 * 100 + 1 / 1000 * 1 * 100) := by
  refine ⟨?_, ?_, ?_⟩ <;>
    norm_num [btBuyFillStep, brokerBuyFill]

/-- C3 (amended): after a Buy fill from a flat account, the position is
strictly positive in both crossover variants and the matching full-position
Sell/close fill brings it back to exactly zero; but the cash accounting
differs: in `SMAStrategy` (src/strategies/sma_strategy.py) cash drops by
exactly the fill notional plus the commission computed in `notify_order`,
while in `SmaCoreStrategy` (src/strategies/sma_strategy_bt.py) the computed
fee is only accumulated in `total_fee_usdt` and cash drops by exactly the
fill notional alone. -/
theorem c3_crossover_fill_accounting (b : Broker) (a : BtCoreAccount)
    (size price taker_fee_rate : ℚ) (maker : Bool)
    (hflat : b.position_size = 0) (hflatBt : a.position_size = 0)
    (hsize : 0 < size) :
    (0 < (buyFillStep b size price maker).position_size ∧
      (buyFillStep b size price maker).cash =
        b.cash - (size * price + notifyOrderCommission maker size price) ∧
      (∀ (price₂ : ℚ) (maker₂ : Bool),
        (sellCloseStep (buyFillStep b size price maker) price₂
          maker₂).position_size = 0)) ∧
    (0 < (btBuyFillStep a size price taker_fee_rate).position_size ∧
      (btBuyFillStep a size price taker_fee_rate).cash =
        a.cash - size * price ∧
      (btBuyFillStep a size price taker_fee_rate).total_fee_usdt =
        a.total_fee_usdt + taker_fee_rate * size * price ∧
      (∀ (price₂ maker_fee_rate : ℚ),
        (btSellCloseStep (btBuyFillStep a size price taker_fee_rate) price₂
          maker_fee_rate).position_size = 0)) := by
  refine ⟨⟨?_, ?_, ?_⟩, ⟨?_, ?_, ?_, ?_⟩⟩
  · simp [buyFillStep, notifyOrderDeduct, brokerBuyFill, hflat, hsize]
  · simp [buyFillStep, notifyOrderDeduct, brokerBuyFill]
    ring
  · intro price₂ maker₂
    simp [sellCloseStep, notifyOrderDeduct, brokerSellFill]
  · simp [btBuyFillStep, brokerBuyFill, hflatBt, hsize]
  · simp [btBuyFillStep, brokerBuyFill]
  · simp [btBuyFillStep, brokerBuyFill]
  · intro price₂ maker_fee_rate
    simp [btSellCloseStep, brokerSellFill]

/-- Witness for C3: flat accounts with 10000 cash buy 1 unit at price 100:
in `SMAStrategy` cash drops by 100 plus the 0.1% fee; in `SmaCoreStrategy`
cash drops by 100 with the fee only accumulated; both closes return the
position to zero. -/
theorem c3_witness :
    ((Broker.mk 10000 0).position_size = 0 ∧
      (BtCoreAccount.mk 10000 0 0).position_size = 0 ∧ (0 : ℚ) < 1) ∧
    (buyFillStep (Broker.mk 10000 0) 1 100 false).cash =
      10000 - (1 * 100 + notifyOrderCommission false 1 100) ∧
    (sellCloseStep (buyFillStep (Broker.mk 10000 0) 1 100 false) 100
      false).position_size = 0 ∧
    (btBuyFillStep (BtCoreAccount.mk 10000 0 0) 1 100 (1 / 1000)).cash =
      10000 - 1 * 100 ∧
    (btSellCloseStep (btBuyFillStep (BtCoreAccount.mk 10000 0 0) 1 100
      (1 / 1000)) 100 (8 / 10000)).position_size = 0 := by
  have hflat : (Broker.mk (10000 : ℚ) 0).position_size = 0 := rfl
  have hflatBt : (BtCoreAccount.mk (10000 : ℚ) 0 0).position_size = 0 := rfl
  have hsize : (0 : ℚ) < 1 := by norm_num
  have h := c3_crossover_fill_accounting (Broker.mk 10000 0)
    (BtCoreAccount.mk 10000 0 0) 1 100 (1 / 1000) false hflat hflatBt hsize
  exact ⟨⟨hflat, hflatBt, hsize⟩, h.1.2.1, h.1.2.2 100 false, h.2.2.1,
    h.2.2.2.2 100 (8 / 10000)⟩

/-- Counterexample for C7: the str_wick runner `run_backtest_multi` applies no filter,
so the combination with `tp_pct = 0 ≤ 0` (and `sl_pct = 0 ≥ 0`) is executed
and produces a result row. -/
theorem c7_counterexample :
    ReversalGridCombo.mk 10000 100 3 0 0 ∈
      run_backtest_multi [10000] [100] [3] [0] [0] ∧ (0 : ℚ) ≤ 0 := by
  constructor
  · simp [run_backtest_multi]
  · norm_num

/-- C7 (amended): `run_sma_backtest_multi` executes no combination with
`short_period ≥ long_period`, and `run_bearish_reversal_backtest_multi`
executes no combination with `tp_pct ≤ 0` or `sl_pct ≥ 0`; the str_wick
runner `run_backtest_multi`, however, applies no filter and executes every generated
combination, including the invalid ones. -/
theorem c7_grid_filters (init_cashes percents : List ℚ)
    (short_periods long_periods : List ℕ) (consecutives : List ℕ)
    (tp_pct_list sl_pct_list : List ℚ) :
    (∀ combo ∈ run_sma_backtest_multi init_cashes percents short_periods
      long_periods, combo.short_period < combo.long_period) ∧
    (∀ combo ∈ run_bearish_reversal_backtest_multi init_cashes percents
      consecutives tp_pct_list sl_pct_list,
      0 < combo.tp_pct ∧ combo.sl_pct < 0) ∧
    (∀ ic ∈ init_cashes, ∀ p ∈ percents, ∀ c ∈ consecutives,
      ∀ tp ∈ tp_pct_list, ∀ sl ∈ sl_pct_list,
      ReversalGridCombo.mk ic p c tp sl ∈
        run_backtest_multi init_cashes percents consecutives tp_pct_list
          sl_pct_list) := by
  refine ⟨?_, ?_, ?_⟩
  · intro combo hmem
    simp only [run_sma_backtest_multi, List.mem_flatMap,
      List.mem_filterMap] at hmem
    obtain ⟨ic, _, p, _, sp, _, lp, _, hif⟩ := hmem
    by_cases hle : lp ≤ sp
    · rw [if_pos hle] at hif
      exact absurd hif (by simp)
    · rw [if_neg hle] at hif
      obtain rfl := Option.some.inj hif
      simpa using Nat.lt_of_not_le hle
  · intro combo hmem
    simp only [run_bearish_reversal_backtest_multi, List.mem_flatMap,
      List.mem_filterMap] at hmem
    obtain ⟨ic, _, p, _, c, _, tp, _, sl, _, hif⟩ := hmem
    by_cases hbad : tp ≤ 0 ∨ 0 ≤ sl
    · rw [if_pos hbad] at hif
      exact absurd hif (by simp)
    · rw [if_neg hbad] at hif
      obtain rfl := Option.some.inj hif
      push_neg at hbad
      simpa using hbad
  · intro ic hic p hp c hc tp htp sl hsl
    simp only [run_backtest_multi, List.mem_flatMap, List.mem_map]
    exact ⟨ic, hic, p, hp, c, hc, tp, htp, sl, hsl, rfl⟩

/-- Witness for the amended C7 statement: a valid combination passes the
bearish-reversal filter, and the same combination is also executed by the
unfiltered str_wick runner. -/
theorem c7_witness :
    (0 < (ReversalGridCombo.mk 10000 100 3 2 (-1)).tp_pct ∧
      (ReversalGridCombo.mk 10000 100 3 2 (-1)).sl_pct < 0) ∧
    ReversalGridCombo.mk 10000 100 3 2 (-1) ∈
      run_backtest_multi [10000] [100] [3] [2] [(-1)] := by
  refine ⟨(c7_grid_filters [10000] [100] [] [] [3] [2] [(-1)]).2.1 _ ?_,
    (c7_grid_filters [10000] [100] [] [] [3] [2] [(-1)]).2.2
      10000 ?_ 100 ?_ 3 ?_ 2 ?_ (-1) ?_⟩
  · norm_num [run_bearish_reversal_backtest_multi]
  all_goals simp

namespace FVal

theorem add_nan_left (v : FVal) : FVal.add .nan v = .nan := rfl

theorem add_nan_right (v : FVal) : FVal.add v .nan = .nan := by
  cases v <;> rfl

end FVal

theorem foldl_add_nan (xs : List FVal) :
    xs.foldl FVal.add FVal.nan = FVal.nan := by
  induction xs with
  | nil => rfl
  | cons x rest ih => rw [List.foldl_cons, FVal.add_nan_left]; exact ih

theorem foldl_add_of_mem_nan (xs : List FVal) (acc : FVal)
    (h : FVal.nan ∈ xs) : xs.foldl FVal.add acc = FVal.nan := by
  induction xs generalizing acc with
  | nil => simp at h
  | cons x rest ih =>
    rw [List.foldl_cons]
    rcases List.mem_cons.mp h with rfl | hrest
    · rw [FVal.add_nan_right]
      exact foldl_add_nan rest
    · exact ih _ hrest

theorem fsum_of_mem_nan (xs : List FVal) (h : FVal.nan ∈ xs) :
    fsum xs = FVal.nan :=
  foldl_add_of_mem_nan xs _ h

theorem smaOfF_append_nan (period : ℕ) (hp : 1 ≤ period) (xs : List FVal) :
    smaOfF period (xs ++ [FVal.nan]) = FVal.nan := by
  unfold smaOfF
  have hmem : FVal.nan ∈ pySliceLastF period (xs ++ [FVal.nan]) := by
    unfold pySliceLastF
    rw [if_neg (by omega : ¬ period = 0)]
    have hlen : (xs ++ [FVal.nan]).length - period ≤ xs.length := by
      simp only [List.length_append, List.length_cons, List.length_nil]
      omega
    rw [List.drop_append_of_le_length hlen]
    exact List.mem_append.mpr (Or.inr (by simp))
  rw [fsum_of_mem_nan _ hmem]
  rfl

/-- Counterexample for C8: updating the float-valued engine with a non-finite
price does not fail with any error — the call completes normally, appends the
`nan` to the price list, and reports no signal.  (The source performs no
input validation and defines no `DataError`.) -/
theorem c8_counterexample :
    (SmaCoreF.mk 1 2 [FVal.fin 1] none).update FVal.nan =
      (none, SmaCoreF.mk 1 2 [FVal.fin 1, FVal.nan] none) := by
  norm_num +decide [SmaCoreF.update, smaOfF, pySliceLastF, fsum,
    FVal.add, FVal.divNat, FVal.gtF, FVal.ltF]

/-- C8 (amended): the signal engine raises no exception on any input; on a
non-finite price the update does not fail fast with a `DataError` either —
the `nan` propagates through the moving-average sums, both comparisons
evaluate to false and the call returns `None` like a no-signal bar. -/
theorem c8_nonfinite_price_no_error (s : SmaCoreF)
    (hp : 1 ≤ s.short_period) :
    (s.update FVal.nan).1 = none := by
  unfold SmaCoreF.update
  dsimp only
  split
  · rfl
  · rw [smaOfF_append_nan s.short_period hp s.prices]
    simp only [FVal.gtF, FVal.ltF, Bool.false_eq_true, if_false]
    split <;> rfl

/-- Witness for the amended C8 statement at a concrete state. -/
theorem c8_witness :
    1 ≤ (SmaCoreF.mk 1 2 [FVal.fin 1] none).short_period ∧
    ((SmaCoreF.mk 1 2 [FVal.fin 1] none).update FVal.nan).1 = none :=
  ⟨by norm_num, c8_nonfinite_price_no_error _ (by norm_num)⟩
